import Mathlib

/-!
Verification of `move_oldfiles.py` (sendust/moveNdelete).

The script is embedded shallowly:
* instants (POSIX timestamps, seconds since the epoch) and hour counts are
  integers (one second granularity; every claim is order-theoretic, so the
  move from real-valued to integer instants loses nothing);
* a directory tree is the mutual inductive `Dir` / `DirList`; each directory
  node carries two booleans that model the nondeterministic environment:
  `mkErr` (an attempt by `os.makedirs` to create this directory's mirrored
  destination raises) and `rmErr` (`os.rmdir` on this directory raises);
  each file carries a boolean `err` (the per-file action attempted on it,
  `shutil.move` or `os.remove`, raises);
* the phases `move_old_files` (lines 40-85) and `delete_very_old_files`
  (lines 87-138) become pure functions from the tree and the clock to the
  resulting trees, counters, log traces and python return value;
* the `__main__` block (lines 142-176) becomes `mainRun`, from the CLI/config
  environment to an exit status, printed diagnostics and the list of phase
  invocations.

Source and target are modelled as two distinct trees (the script is used with
disjoint source and target roots; nothing in the claims probes overlap).
-/

namespace MoveNDelete

/-- `get_age_threshold_timestamp` (lines 27-36):
`datetime.now() - timedelta(hours=age_hours)`, as a POSIX timestamp.
`now` is the value of the clock at the call, one hour is 3600 seconds. -/
def get_age_threshold_timestamp (now : ℤ) (age_hours : ℤ) : ℤ :=
  now - age_hours * 3600

/-- One file in a directory listing: its name, its `st_mtime`, and a flag
modelling whether the OS raises when the per-file action (move in phase one,
delete in phase two) is attempted on it. -/
structure FNode where
  name : String
  mtime : ℤ
  err : Bool
deriving DecidableEq, Repr

mutual
/-- A directory: environment failure flags, the files it contains and its
subdirectories.  `mkErr` models `os.makedirs` raising when this source
directory's mirrored destination is created (line 66); `rmErr` models
`os.rmdir` raising on this directory (line 132). -/
inductive Dir where
  | node (mkErr rmErr : Bool) (files : List FNode) (subdirs : DirList) : Dir
/-- A directory listing: named subdirectories in listing order. -/
inductive DirList where
  | nil : DirList
  | cons (name : String) (d : Dir) (rest : DirList) : DirList
end

def Dir.mkErr : Dir → Bool
  | .node e _ _ _ => e

def Dir.rmErr : Dir → Bool
  | .node _ e _ _ => e

def Dir.files : Dir → List FNode
  | .node _ _ fs _ => fs

def Dir.subdirs : Dir → DirList
  | .node _ _ _ sd => sd

/-- A freshly created directory (`os.makedirs`): empty, no failure flags. -/
def emptyDir : Dir := .node false false [] .nil

/-- First entry of the listing with the given name. -/
def DirList.find : DirList → String → Option Dir
  | .nil, _ => none
  | .cons m d rest, n => if m = n then some d else rest.find n

/-- Replace the first entry with the given name, or append a new one. -/
def DirList.set : DirList → String → Dir → DirList
  | .nil, n, d => .cons n d .nil
  | .cons m e rest, n, d =>
      if m = n then .cons n d rest else .cons m e (rest.set n d)

def DirList.names : DirList → List String
  | .nil => []
  | .cons m _ rest => m :: rest.names

/-- Whether the listing is empty (`os.listdir` finds no subdirectories). -/
def DirList.isNil : DirList → Bool
  | .nil => true
  | .cons _ _ _ => false

/-- First file of the listing with the given name. -/
def findFile : List FNode → String → Option FNode
  | [], _ => none
  | f :: rest, n => if f.name = n then some f else findFile rest n

/-- `shutil.move` at the destination listing: overwrite any file of the same
name. -/
def putFile (fs : List FNode) (f : FNode) : List FNode :=
  f :: fs.filter (fun g => g.name != f.name)

/-- The directory reached from `d` by the relative path `p`. -/
def lookupDir : Dir → List String → Option Dir
  | d, [] => some d
  | d, n :: p =>
      match d.subdirs.find n with
      | some e => lookupDir e p
      | none => none

/-- The file named `n` in the directory reached from `d` by path `p`. -/
def lookupFile (d : Dir) (p : List String) (n : String) : Option FNode :=
  match lookupDir d p with
  | some e => findFile e.files n
  | none => none

/-- One printed log line.  Paths are relative to the phase's root. -/
inductive Msg where
  | moved (rel : List String) (name : String)
  | errorMoving (rel : List String) (name : String)
  | warnSource
  | moveSummary (n : Nat)
  | deleted (rel : List String) (name : String)
  | errorDeleting (rel : List String) (name : String)
  | removedDir (rel : List String)
  | warnTarget
  | delSummary (n : Nat)
deriving DecidableEq, Repr

/-- Result of the per-file loop of the move phase in one directory. -/
structure FilesRes where
  kept : List FNode
  tfs : List FNode
  cnt : Nat
  trace : List Msg
deriving Repr

/-- Result of visiting the remaining sibling subdirectories in the move
phase. -/
structure SubsRes where
  subs : DirList
  tsubs : DirList
  cnt : Nat
  trace : List Msg
  ok : Bool

/-- Result of the move-phase walk below one directory: the remaining source
subtree, the destination subtree (`none` when it was never created), the
number of files moved, the log, and whether the walk completed without an
uncaught exception. -/
structure WalkRes where
  src : Dir
  tgt : Option Dir
  cnt : Nat
  trace : List Msg
  ok : Bool

/-- Lines 68-83: the inner loop of `move_old_files` over the files of one
directory.  A file strictly older than the cutoff is moved (overwriting at
the destination) and counted, unless the move raises, in which case the
error is logged and the loop continues; younger files are left alone. -/
def moveFiles (c : ℤ) (rel : List String) : List FNode → List FNode → FilesRes
  | [], tfs => ⟨[], tfs, 0, []⟩
  | f :: fs, tfs =>
      if f.mtime < c then
        if f.err then
          let r := moveFiles c rel fs tfs
          ⟨f :: r.kept, r.tfs, r.cnt, .errorMoving rel f.name :: r.trace⟩
        else
          let r := moveFiles c rel fs (putFile tfs f)
          ⟨r.kept, r.tfs, r.cnt + 1, .moved rel f.name :: r.trace⟩
      else
        let r := moveFiles c rel fs tfs
        ⟨f :: r.kept, r.tfs, r.cnt, r.trace⟩

mutual
/-- Lines 62-83: the `os.walk(source)` loop, top-down.  Visiting a directory
first creates its mirrored destination (`tgt.getD emptyDir`; when `mkErr` is
set, `os.makedirs` raises: the exception is not caught, so the walk stops and
`ok` is `false`), then processes the files, then the subdirectories in
listing order. -/
def moveWalk (c : ℤ) (rel : List String) : Dir → Option Dir → WalkRes
  | .node mk rm files subs, tgt =>
      if mk then ⟨.node mk rm files subs, tgt, 0, [], false⟩
      else
        let t0 := tgt.getD emptyDir
        let fr := moveFiles c rel files t0.files
        let sr := moveSubs c rel subs t0.subdirs
        ⟨.node mk rm fr.kept sr.subs,
         some (.node t0.mkErr t0.rmErr fr.tfs sr.tsubs),
         fr.cnt + sr.cnt, fr.trace ++ sr.trace, sr.ok⟩

/-- The walk over the sibling subdirectories, in listing order.  When a
subdirectory's walk stops on an uncaught exception, the remaining siblings
are not visited. -/
def moveSubs (c : ℤ) (rel : List String) : DirList → DirList → SubsRes
  | .nil, ts => ⟨.nil, ts, 0, [], true⟩
  | .cons n d rest, ts =>
      let wr := moveWalk c (rel ++ [n]) d (ts.find n)
      let ts1 := match wr.tgt with
        | some t => ts.set n t
        | none => ts
      if wr.ok then
        let sr := moveSubs c rel rest ts1
        ⟨.cons n wr.src sr.subs, sr.tsubs, wr.cnt + sr.cnt,
         wr.trace ++ sr.trace, sr.ok⟩
      else ⟨.cons n wr.src rest, ts1, wr.cnt, wr.trace, false⟩
end

/-- Outcome of `move_old_files`: the source tree (`none` when it did not
exist), the target tree (`none` when it was never created), the value of the
`moved_count` counter, whether the function returned normally, the python
return value, and the log. -/
structure MoveResult where
  src : Option Dir
  tgt : Option Dir
  moved : Nat
  ok : Bool
  ret : Option Nat
  trace : List Msg

/-- Lines 40-85: `move_old_files(source_path, target_path,
age_threshold_hours)`.  A `none` source models a `source_path` that does not
exist or is not a directory (line 55): the function logs a warning and
returns.  Otherwise the cutoff is computed from the clock (line 59) and the
tree is walked.  The summary line 85 is only reached when no exception
escaped the walk.  The python function returns `None` on every path
(docstring line 47). -/
def move_old_files (now : ℤ) (source target : Option Dir)
    (age_threshold_hours : ℤ) : MoveResult :=
  match source with
  | none => ⟨none, target, 0, true, none, [.warnSource]⟩
  | some s =>
      let c := get_age_threshold_timestamp now age_threshold_hours
      let wr := moveWalk c [] s target
      ⟨some wr.src, wr.tgt, wr.cnt, wr.ok, none,
       wr.trace ++ if wr.ok then [.moveSummary wr.cnt] else []⟩

/-- Result of the per-file loop of the deletion phase in one directory. -/
structure ReapFilesRes where
  kept : List FNode
  cnt : Nat
  trace : List Msg
deriving Repr

/-- Result of reaping one directory: `none` when the directory was removed. -/
structure ReapRes where
  dir : Option Dir
  cnt : Nat
  trace : List Msg

/-- Result of reaping a listing of sibling subdirectories. -/
structure ReapSubsRes where
  subs : DirList
  cnt : Nat
  trace : List Msg

/-- Lines 110-126: the inner loop of `delete_very_old_files` over the files
of one directory.  A file strictly older than the cutoff is deleted and
counted, unless the deletion raises, in which case the error is logged and
the loop continues; younger files are kept. -/
def reapFiles (c : ℤ) (rel : List String) : List FNode → ReapFilesRes
  | [] => ⟨[], 0, []⟩
  | f :: fs =>
      let r := reapFiles c rel fs
      if f.mtime < c then
        if f.err then ⟨f :: r.kept, r.cnt, .errorDeleting rel f.name :: r.trace⟩
        else ⟨r.kept, r.cnt + 1, .deleted rel f.name :: r.trace⟩
      else ⟨f :: r.kept, r.cnt, r.trace⟩

mutual
/-- Lines 109-136: one `os.walk(target, topdown=False)` visit.  The
subdirectories are fully processed first (post-order), then the files of
this directory, then the emptiness check (lines 130-136): a directory that
is empty at evaluation time and is not the walk's root is removed; if
`os.rmdir` raises the `OSError` is swallowed (`pass`, line 136) and nothing
is printed. -/
def reapNode (c : ℤ) (rel : List String) (isRoot : Bool) : Dir → ReapRes
  | .node mk rm files subs =>
      let sr := reapSubs c rel subs
      let fr := reapFiles c rel files
      if fr.kept.isEmpty && sr.subs.isNil && !isRoot then
        if rm then ⟨some (.node mk rm fr.kept sr.subs), sr.cnt + fr.cnt,
                    sr.trace ++ fr.trace⟩
        else ⟨none, sr.cnt + fr.cnt, sr.trace ++ fr.trace ++ [.removedDir rel]⟩
      else ⟨some (.node mk rm fr.kept sr.subs), sr.cnt + fr.cnt,
            sr.trace ++ fr.trace⟩

/-- Post-order visit of the sibling subdirectories in listing order; removed
subdirectories disappear from the listing. -/
def reapSubs (c : ℤ) (rel : List String) : DirList → ReapSubsRes
  | .nil => ⟨.nil, 0, []⟩
  | .cons n d rest =>
      let rr := reapNode c (rel ++ [n]) false d
      let sr := reapSubs c rel rest
      match rr.dir with
      | some e => ⟨.cons n e sr.subs, rr.cnt + sr.cnt, rr.trace ++ sr.trace⟩
      | none => ⟨sr.subs, rr.cnt + sr.cnt, rr.trace ++ sr.trace⟩
end

/-- Outcome of `delete_very_old_files`: the target tree (`none` when it did
not exist), the `deleted_count` counter, the python return value, and the
log. -/
structure DelResult where
  tgt : Option Dir
  deleted : Nat
  ret : Option Nat
  trace : List Msg

/-- Lines 87-138: `delete_very_old_files(target_path,
deletion_threshold_hours)`.  A `none` target models a `target_path` that is
not a directory (line 101).  Every exception inside the walk is caught, so
the summary line 138 is always reached.  The python function returns `None`
on every path (docstring line 93). -/
def delete_very_old_files (now : ℤ) (target : Option Dir)
    (deletion_threshold_hours : ℤ) : DelResult :=
  match target with
  | none => ⟨none, 0, none, [.warnTarget]⟩
  | some t =>
      let c := get_age_threshold_timestamp now deletion_threshold_hours
      let rr := reapNode c [] true t
      ⟨rr.dir, rr.cnt, none, rr.trace ++ [.delSummary rr.cnt]⟩

mutual
/-- No directory of the tree has its `os.makedirs` failure flag set. -/
def noMkErr : Dir → Bool
  | .node mk _ _ subs => !mk && noMkErrL subs
def noMkErrL : DirList → Bool
  | .nil => true
  | .cons _ d rest => noMkErr d && noMkErrL rest
end

mutual
/-- No file of the tree has its per-file failure flag set. -/
def errFree : Dir → Bool
  | .node _ _ fs subs => fs.all (fun f => !f.err) && errFreeL subs
def errFreeL : DirList → Bool
  | .nil => true
  | .cons _ d rest => errFree d && errFreeL rest
end

/-- An environment in which the move phase meets no OS failure at all. -/
def cleanMove (d : Dir) : Bool := noMkErr d && errFree d

mutual
/-- An environment in which the deletion phase meets no OS failure: no file
action raises and no `os.rmdir` raises. -/
def cleanDel : Dir → Bool
  | .node _ rm fs subs => !rm && fs.all (fun f => !f.err) && cleanDelL subs
def cleanDelL : DirList → Bool
  | .nil => true
  | .cons _ d rest => cleanDel d && cleanDelL rest
end

/-- No repeated element (directory listings of a real filesystem never
repeat a name). -/
def nodupStr : List String → Bool
  | [] => true
  | x :: xs => !(xs.contains x) && nodupStr xs

mutual
/-- Well-formed tree: within each directory, file names and subdirectory
names are not repeated. -/
def wfTree : Dir → Bool
  | .node _ _ fs subs =>
      nodupStr (fs.map FNode.name) && nodupStr subs.names && wfTreeL subs
def wfTreeL : DirList → Bool
  | .nil => true
  | .cons _ d rest => wfTree d && wfTreeL rest
end

mutual
/-- Every file of the tree is strictly older than the cutoff. -/
def allOld (c : ℤ) : Dir → Bool
  | .node _ _ fs subs => fs.all (fun f => decide (f.mtime < c)) && allOldL c subs
def allOldL (c : ℤ) : DirList → Bool
  | .nil => true
  | .cons _ d rest => allOld c d && allOldL c rest
end

mutual
/-- Number of files of the tree that are strictly older than the cutoff and
whose per-file action does not raise. -/
def oldCleanCount (c : ℤ) : Dir → Nat
  | .node _ _ fs subs =>
      (fs.filter (fun f => decide (f.mtime < c) && !f.err)).length +
        oldCleanCountL c subs
def oldCleanCountL (c : ℤ) : DirList → Nat
  | .nil => 0
  | .cons _ d rest => oldCleanCount c d + oldCleanCountL c rest
end

/-- One configuration entry as read from the JSON document (lines 154-158):
each field is looked up with `conf.get`, so each may be absent. -/
structure RawPolicy where
  source_path : Option String
  target_path : Option String
  age_threshold_hours : Option ℤ
  deletion_threshold_hours : Option ℤ
deriving DecidableEq, Repr

/-- What the per-policy body of the `__main__` loop does for one entry. -/
inductive Phase where
  | skipPolicy
  | move (src tgt : String) (hours : ℤ)
  | del (tgt : String) (hours : ℤ)
  | skipDeletion (tgt : String)
deriving DecidableEq, Repr

/-- Lines 154-172: one iteration of the policy loop.  `if not source_path or
not target_path` skips the entry (a missing field or an empty string is
falsy); otherwise the move phase runs with `age_threshold_hours` defaulted
to 0, and the deletion phase runs exactly when `deletion_threshold_hours`
`is not None`, with a skip notice otherwise. -/
def runPolicy (p : RawPolicy) : List Phase :=
  match p.source_path, p.target_path with
  | some s, some t =>
      if s != "" && t != "" then
        .move s t (p.age_threshold_hours.getD 0) ::
          (match p.deletion_threshold_hours with
           | some h => [.del t h]
           | none => [.skipDeletion t])
      else [.skipPolicy]
  | _, _ => [.skipPolicy]

/-- The configuration environment of a run: the named file is missing, or
holds invalid JSON, or parses and yields the `file_mover_config` list
(possibly empty, also when the key is absent). -/
inductive ConfigInput where
  | missingFile : ConfigInput
  | badJson : ConfigInput
  | parsed (policies : List RawPolicy) : ConfigInput

/-- Lines 10-25: `load_config` returns the policy list, and `[]` with a
printed diagnostic when the file is missing or unparsable. -/
def load_config : ConfigInput → List RawPolicy × List String
  | .missingFile => ([], ["Error: Configuration file not found"])
  | .badJson => ([], ["Error: Invalid JSON format"])
  | .parsed ps => (ps, [])

/-- Outcome of the `__main__` block: the process exit status, the printed
lines (configuration diagnostics and top-level reports), and the phases
invoked. -/
structure MainResult where
  exitCode : Nat
  output : List String
  phases : List Phase

/-- Lines 142-176: the `__main__` block.  A missing CLI argument prints a
usage line and exits with status 1 (line 145).  Otherwise the configuration
is loaded; a non-empty list is processed policy by policy and the script
falls off the end (exit status 0); an empty list prints the no-valid-
configurations report and the script also falls off the end (exit status
0 - there is no `sys.exit` on this path). -/
def mainRun (hasArg : Bool) (inp : ConfigInput) : MainResult :=
  if !hasArg then
    ⟨1, ["Usage: python move_old_files.py <config_file_name.json>"], []⟩
  else
    let lc := load_config inp
    if lc.1.isEmpty then
      ⟨0, lc.2 ++ ["No valid configurations found. Exiting."], []⟩
    else
      ⟨0, lc.2 ++ ["Starting scheduled file cleanup",
                   "Scheduled file cleanup finished."],
       (lc.1.map runPolicy).flatten⟩

/-! ## Generic lemmas about listings -/

theorem DirList.find_set_self : ∀ (ts : DirList) (n : String) (t : Dir),
    (ts.set n t).find n = some t
  | .nil, n, t => by simp [DirList.set, DirList.find]
  | .cons m e rest, n, t => by
      by_cases h : m = n
      · simp [DirList.set, DirList.find, h]
      · simp [DirList.set, DirList.find, h, DirList.find_set_self rest n t]

theorem DirList.find_set_other : ∀ (ts : DirList) {m n : String} (t : Dir),
    m ≠ n → (ts.set m t).find n = ts.find n
  | .nil, m, n, t, h => by simp [DirList.set, DirList.find, h]
  | .cons k e rest, m, n, t, h => by
      by_cases hk : k = m
      · subst hk
        simp [DirList.set, DirList.find, h]
      · simp [DirList.set, DirList.find, hk, DirList.find_set_other rest t h]

theorem findFile_mem {fs : List FNode} {n : String} {f : FNode}
    (h : findFile fs n = some f) : f ∈ fs := by
  induction fs with
  | nil => simp [findFile] at h
  | cons g rest ih =>
      simp only [findFile] at h
      split at h
      · cases h; exact List.mem_cons_self _ _
      · exact List.mem_cons_of_mem _ (ih h)

theorem findFile_name {fs : List FNode} {n : String} {f : FNode}
    (h : findFile fs n = some f) : f.name = n := by
  induction fs with
  | nil => simp [findFile] at h
  | cons g rest ih =>
      simp only [findFile] at h
      split at h
      · cases h; assumption
      · exact ih h

theorem findFile_filter_ne {fs : List FNode} {n s : String} (h : n ≠ s) :
    findFile (fs.filter (fun g => g.name != s)) n = findFile fs n := by
  induction fs with
  | nil => rfl
  | cons g rest ih =>
      by_cases hgs : g.name = s
      · have hgn : g.name ≠ n := fun he => h (he ▸ hgs)
        rw [List.filter_cons, if_neg (by simp [hgs])]
        rw [ih]
        simp [findFile, hgn]
      · rw [List.filter_cons, if_pos (by simp [hgs])]
        simp [findFile, ih]

theorem findFile_putFile_self (fs : List FNode) (f : FNode) :
    findFile (putFile fs f) f.name = some f := by
  simp [putFile, findFile]

theorem findFile_putFile_other (fs : List FNode) (f : FNode) {n : String}
    (h : n ≠ f.name) : findFile (putFile fs f) n = findFile fs n := by
  have hfn : f.name ≠ n := fun he => h he.symm
  simp only [putFile, findFile, if_neg hfn]
  exact findFile_filter_ne h

/-! ## Descent of the tree predicates along lookups -/

theorem noMkErrL_find : ∀ {l : DirList}, noMkErrL l = true → ∀ {n : String}
    {d : Dir}, l.find n = some d → noMkErr d = true
  | .nil, _, n, d, hf => by simp [DirList.find] at hf
  | .cons m e rest, h, n, d, hf => by
      simp only [noMkErrL, Bool.and_eq_true] at h
      simp only [DirList.find] at hf
      split at hf
      · cases hf; exact h.1
      · exact noMkErrL_find h.2 hf

theorem errFreeL_find : ∀ {l : DirList}, errFreeL l = true → ∀ {n : String}
    {d : Dir}, l.find n = some d → errFree d = true
  | .nil, _, n, d, hf => by simp [DirList.find] at hf
  | .cons m e rest, h, n, d, hf => by
      simp only [errFreeL, Bool.and_eq_true] at h
      simp only [DirList.find] at hf
      split at hf
      · cases hf; exact h.1
      · exact errFreeL_find h.2 hf

theorem wfTreeL_find : ∀ {l : DirList}, wfTreeL l = true → ∀ {n : String}
    {d : Dir}, l.find n = some d → wfTree d = true
  | .nil, _, n, d, hf => by simp [DirList.find] at hf
  | .cons m e rest, h, n, d, hf => by
      simp only [wfTreeL, Bool.and_eq_true] at h
      simp only [DirList.find] at hf
      split at hf
      · cases hf; exact h.1
      · exact wfTreeL_find h.2 hf

theorem cleanDelL_find : ∀ {l : DirList}, cleanDelL l = true → ∀ {n : String}
    {d : Dir}, l.find n = some d → cleanDel d = true
  | .nil, _, n, d, hf => by simp [DirList.find] at hf
  | .cons m e rest, h, n, d, hf => by
      simp only [cleanDelL, Bool.and_eq_true] at h
      simp only [DirList.find] at hf
      split at hf
      · cases hf; exact h.1
      · exact cleanDelL_find h.2 hf

theorem errFree_lookupDir {d : Dir} {p : List String} {e : Dir}
    (h : errFree d = true) (hl : lookupDir d p = some e) : errFree e = true := by
  induction p generalizing d with
  | nil => simp [lookupDir] at hl; cases hl; exact h
  | cons n p ih =>
      cases d with
      | node mk rm fs subs =>
          simp only [lookupDir, Dir.subdirs] at hl
          simp only [errFree, Bool.and_eq_true] at h
          cases hfind : DirList.find subs n with
          | none => rw [hfind] at hl; cases hl
          | some e' =>
              rw [hfind] at hl
              exact ih (errFreeL_find h.2 hfind) hl

theorem errFree_lookupFile {d : Dir} {p : List String} {n : String} {f : FNode}
    (h : errFree d = true) (hl : lookupFile d p n = some f) : f.err = false := by
  simp only [lookupFile] at hl
  cases he : lookupDir d p with
  | none => rw [he] at hl; cases hl
  | some e =>
      rw [he] at hl
      have hef := errFree_lookupDir h he
      cases e with
      | node mk rm fs subs =>
          simp only [errFree, Bool.and_eq_true, List.all_eq_true] at hef
          have := hef.1 f (findFile_mem hl)
          simpa using this

/-! ## The deletion walk -/

theorem reapFiles_kept_isEmpty (c : ℤ) (rel : List String) : ∀ (fs : List FNode),
    fs.all (fun f => !f.err) = true →
    (reapFiles c rel fs).kept.isEmpty = fs.all (fun f => decide (f.mtime < c))
  | [], _ => rfl
  | f :: fs, h => by
      simp only [List.all_cons, Bool.and_eq_true] at h
      have heq : f.err = false := by simpa using h.1
      by_cases hf : f.mtime < c
      · simp [reapFiles, hf, heq, reapFiles_kept_isEmpty c rel fs h.2]
      · simp [reapFiles, hf, List.all_cons]

theorem reapFiles_cnt (c : ℤ) (rel : List String) : ∀ (fs : List FNode),
    (reapFiles c rel fs).cnt =
      (fs.filter (fun f => decide (f.mtime < c) && !f.err)).length
  | [] => rfl
  | f :: fs => by
      by_cases hf : f.mtime < c
      · cases he : f.err
        · simp [reapFiles, hf, he, List.filter_cons, reapFiles_cnt c rel fs]
        · simp [reapFiles, hf, he, List.filter_cons, reapFiles_cnt c rel fs]
      · simp [reapFiles, hf, List.filter_cons, reapFiles_cnt c rel fs]

theorem reapFiles_no_removedDir (c : ℤ) (rel : List String) : ∀ (fs : List FNode)
    (q : List String), Msg.removedDir q ∉ (reapFiles c rel fs).trace
  | [], q => by simp [reapFiles]
  | f :: fs, q => by
      by_cases hf : f.mtime < c
      · cases he : f.err <;>
          simp [reapFiles, hf, he, reapFiles_no_removedDir c rel fs q]
      · simp [reapFiles, hf, reapFiles_no_removedDir c rel fs q]

theorem reapNode_dir_none_iff_empty (c : ℤ) (rel : List String) (mk rm : Bool)
    (fs : List FNode) (subs : DirList) :
    ((reapNode c rel false (.node mk rm fs subs)).dir = none) ↔
      ((reapFiles c rel fs).kept.isEmpty = true ∧
       (reapSubs c rel subs).subs.isNil = true ∧ rm = false) := by
  simp only [reapNode, Bool.not_false, Bool.and_true]
  by_cases h1 : (reapFiles c rel fs).kept.isEmpty = true
  · by_cases h2 : (reapSubs c rel subs).subs.isNil = true
    · rw [if_pos (by rw [h1, h2]; rfl)]
      cases rm
      · simp [h1, h2]
      · simp [h1, h2]
    · rw [if_neg (by simp [h2])]
      simp [h1, h2]
  · rw [if_neg (by simp [h1])]
    simp [h1]

mutual
theorem reapNode_none_iff (c : ℤ) : ∀ (rel : List String) (d : Dir),
    cleanDel d = true →
    (((reapNode c rel false d).dir = none) ↔ allOld c d = true)
  | rel, .node mk rm fs subs, h => by
      simp only [cleanDel, Bool.and_eq_true] at h
      have hrm : rm = false := by simpa using h.1.1
      have hkept := reapFiles_kept_isEmpty c rel fs h.1.2
      have hiff := reapSubs_nil_iff c rel subs h.2
      rw [reapNode_dir_none_iff_empty]
      simp only [allOld, Bool.and_eq_true]
      constructor
      · rintro ⟨h1, h2, _⟩
        exact ⟨by rw [← hkept]; exact h1, hiff.mp h2⟩
      · rintro ⟨h1, h2⟩
        exact ⟨by rw [hkept]; exact h1, hiff.mpr h2, hrm⟩

theorem reapSubs_nil_iff (c : ℤ) : ∀ (rel : List String) (l : DirList),
    cleanDelL l = true →
    (((reapSubs c rel l).subs.isNil = true) ↔ allOldL c l = true)
  | rel, .nil, _ => by simp [reapSubs, DirList.isNil, allOldL]
  | rel, .cons n d rest, h => by
      simp only [cleanDelL, Bool.and_eq_true] at h
      have hd := reapNode_none_iff c (rel ++ [n]) d h.1
      have hr := reapSubs_nil_iff c rel rest h.2
      simp only [reapSubs, allOldL, Bool.and_eq_true]
      cases hdir : (reapNode c (rel ++ [n]) false d).dir with
      | some e =>
          rw [hdir] at hd
          simp only [DirList.isNil]
          constructor
          · intro hc
            cases hc
          · intro hall
            exact Option.noConfusion (hd.mpr hall.1)
      | none =>
          rw [hdir] at hd
          simp only [ReapSubsRes.subs]
          rw [hr]
          constructor
          · intro hall
            exact ⟨hd.mp rfl, hall⟩
          · intro hall
            exact hall.2
end

mutual
theorem reapNode_cnt (c : ℤ) : ∀ (rel : List String) (b : Bool) (d : Dir),
    (reapNode c rel b d).cnt = oldCleanCount c d
  | rel, b, .node mk rm fs subs => by
      have h1 := reapSubs_cnt c rel subs
      have h2 := reapFiles_cnt c rel fs
      simp only [reapNode, oldCleanCount]
      split
      · split <;> simp [h1, h2, Nat.add_comm]
      · simp [h1, h2, Nat.add_comm]
theorem reapSubs_cnt (c : ℤ) : ∀ (rel : List String) (l : DirList),
    (reapSubs c rel l).cnt = oldCleanCountL c l
  | _, .nil => rfl
  | rel, .cons n d rest => by
      have h1 := reapNode_cnt c (rel ++ [n]) false d
      have h2 := reapSubs_cnt c rel rest
      simp only [reapSubs, oldCleanCountL]
      cases hd : (reapNode c (rel ++ [n]) false d).dir <;> simp [h1, h2]
end

mutual
theorem reapNode_removedDir_len (c : ℤ) : ∀ (rel : List String) (b : Bool)
    (d : Dir) (q : List String),
    Msg.removedDir q ∈ (reapNode c rel b d).trace → rel.length ≤ q.length
  | rel, b, .node mk rm fs subs, q => by
      have h1 := reapSubs_removedDir_len c rel subs q
      have h2 := reapFiles_no_removedDir c rel fs q
      simp only [reapNode]
      split
      · split
        · intro hm
          simp only [ReapRes.trace, List.mem_append] at hm
          rcases hm with hm | hm
          · exact Nat.le_of_lt (h1 hm)
          · exact absurd hm h2
        · intro hm
          simp only [ReapRes.trace, List.mem_append, List.mem_singleton] at hm
          rcases hm with (hm | hm) | hm
          · exact Nat.le_of_lt (h1 hm)
          · exact absurd hm h2
          · cases hm
            exact Nat.le_refl _
      · intro hm
        simp only [ReapRes.trace, List.mem_append] at hm
        rcases hm with hm | hm
        · exact Nat.le_of_lt (h1 hm)
        · exact absurd hm h2
theorem reapSubs_removedDir_len (c : ℤ) : ∀ (rel : List String) (l : DirList)
    (q : List String),
    Msg.removedDir q ∈ (reapSubs c rel l).trace → rel.length < q.length
  | rel, .nil, q => by simp [reapSubs]
  | rel, .cons n d rest, q => by
      have h1 := reapNode_removedDir_len c (rel ++ [n]) false d q
      have h2 := reapSubs_removedDir_len c rel rest q
      simp only [reapSubs]
      cases hd : (reapNode c (rel ++ [n]) false d).dir <;>
      · intro hm
        simp only [ReapSubsRes.trace, List.mem_append] at hm
        rcases hm with hm | hm
        · have := h1 hm
          simp only [List.length_append, List.length_singleton] at this
          omega
        · exact h2 hm
end

/-! ## C2: post-order removal of emptied directories cascades -/

/-- C2: `delete_very_old_files` visits directories in post-order
(`os.walk(..., topdown=False)`; in the embedding `reapNode` resolves the
subdirectories before the files and the emptiness check of their parent),
and each visited directory other than the walk's root is removed exactly
when it is empty at evaluation time.  Consequently removal cascades within
the single pass: in an environment where no deletion raises, a non-root
directory disappears if and only if every file in its entire subtree is
strictly older than the cutoff — an emptied leaf is removed before its
parent is evaluated, letting the parent be removed in the same pass. -/
theorem reap_removes_dir_iff_subtree_old (c : ℤ) (rel : List String) (d : Dir)
    (hc : cleanDel d = true) :
    ((reapNode c rel false d).dir = none) ↔ allOld c d = true :=
  reapNode_none_iff c rel d hc

/-- Witness for C2 at the spec's scenario: `logs/2023/old.log` is 200 hours
old against a 168-hour threshold, so `2023` and `logs` are both removed in
one pass. -/
theorem reap_removes_dir_iff_subtree_old_witness :
    cleanDel (Dir.node false false []
      (.cons "2023" (Dir.node false false [⟨"old.log", 0, false⟩] .nil) .nil)) = true ∧
    (((reapNode (get_age_threshold_timestamp (200 * 3600) 168) ["logs"] false
        (Dir.node false false []
          (.cons "2023" (Dir.node false false [⟨"old.log", 0, false⟩] .nil) .nil))).dir = none) ↔
      allOld (get_age_threshold_timestamp (200 * 3600) 168)
        (Dir.node false false []
          (.cons "2023" (Dir.node false false [⟨"old.log", 0, false⟩] .nil) .nil)) = true) :=
  ⟨by decide,
   reap_removes_dir_iff_subtree_old (get_age_threshold_timestamp (200 * 3600) 168)
     ["logs"]
     (Dir.node false false []
       (.cons "2023" (Dir.node false false [⟨"old.log", 0, false⟩] .nil) .nil))
     (by decide)⟩

/-! ## C8: directory-removal failures -/

/-- C8 counterexample: the target root holds an empty subdirectory `a` whose
`os.rmdir` raises, followed by a subdirectory `b` holding one expired file.
The run deletes `b/f` and removes `b`, continues past the failed removal of
`a` (which survives), and its complete output trace holds no message about
`a` whatsoever: the removal failure is swallowed by `except OSError: pass`
(line 136), not logged.  This refutes the claim that a failed directory
removal is logged. -/
theorem rmdir_failure_silent_cex :
    (delete_very_old_files 3600 (some (Dir.node false false []
        (.cons "a" (Dir.node false true [] .nil)
          (.cons "b" (Dir.node false false [⟨"f", 0, false⟩] .nil) .nil)))) 0).trace =
      [Msg.deleted ["b"] "f", Msg.removedDir ["b"], Msg.delSummary 1] ∧
    (lookupDir ((delete_very_old_files 3600 (some (Dir.node false false []
        (.cons "a" (Dir.node false true [] .nil)
          (.cons "b" (Dir.node false false [⟨"f", 0, false⟩] .nil) .nil)))) 0).tgt.getD emptyDir)
      ["a"]).isSome = true ∧
    (lookupDir ((delete_very_old_files 3600 (some (Dir.node false false []
        (.cons "a" (Dir.node false true [] .nil)
          (.cons "b" (Dir.node false false [⟨"f", 0, false⟩] .nil) .nil)))) 0).tgt.getD emptyDir)
      ["b"]).isSome = false := by
  refine ⟨by decide, by decide, by decide⟩

/-- C8 (amended): when removal of a directory during the deletion phase
fails — modelled by the `rmErr` flag — the failure is silently swallowed
(`except OSError: pass`, line 136): no message about the directory is
emitted, the directory survives, and the walk continues; indeed, whatever
removal failures occur anywhere in the tree, every expired file whose own
deletion does not raise is still deleted (the counter always equals the
number of such files in the subtree). -/
theorem reapNode_dir_of_rmErr (c : ℤ) (rel : List String) (b : Bool)
    (mk : Bool) (fs : List FNode) (subs : DirList) :
    (reapNode c rel b (.node mk true fs subs)).dir =
      some (.node mk true (reapFiles c rel fs).kept (reapSubs c rel subs).subs) := by
  simp only [reapNode]
  split
  · rfl
  · rfl

theorem reapNode_trace_of_rmErr (c : ℤ) (rel : List String) (b : Bool)
    (mk : Bool) (fs : List FNode) (subs : DirList) :
    (reapNode c rel b (.node mk true fs subs)).trace =
      (reapSubs c rel subs).trace ++ (reapFiles c rel fs).trace := by
  simp only [reapNode]
  split
  · rfl
  · rfl

theorem rmdir_failure_tolerated_silently (c : ℤ) (rel : List String) (b : Bool)
    (d : Dir) (hrm : d.rmErr = true) :
    (∀ d' : Dir, (reapNode c rel b d').cnt = oldCleanCount c d') ∧
    (reapNode c rel b d).dir.isSome = true ∧
    Msg.removedDir rel ∉ (reapNode c rel b d).trace := by
  refine ⟨fun d' => reapNode_cnt c rel b d', ?_, ?_⟩
  · cases d with
    | node mk rm fs subs =>
        have hrm' : rm = true := by simpa [Dir.rmErr] using hrm
        subst hrm'
        rw [reapNode_dir_of_rmErr]
        rfl
  · cases d with
    | node mk rm fs subs =>
        have hrm' : rm = true := by simpa [Dir.rmErr] using hrm
        subst hrm'
        have h1 := reapSubs_removedDir_len c rel subs rel
        have h2 := reapFiles_no_removedDir c rel fs rel
        rw [reapNode_trace_of_rmErr]
        simp only [List.mem_append]
        rintro (hm | hm)
        · exact absurd (h1 hm) (by omega)
        · exact absurd hm h2

/-- Witness for C8 (amended) at a concrete empty directory whose removal
raises. -/
theorem rmdir_failure_tolerated_silently_witness :
    (Dir.node false true [] .nil).rmErr = true ∧
    ((∀ d' : Dir, (reapNode 100 ["a"] false d').cnt = oldCleanCount 100 d') ∧
     (reapNode 100 ["a"] false (Dir.node false true [] .nil)).dir.isSome = true ∧
     Msg.removedDir ["a"] ∉ (reapNode 100 ["a"] false (Dir.node false true [] .nil)).trace) :=
  ⟨by decide,
   rmdir_failure_tolerated_silently 100 ["a"] false (Dir.node false true [] .nil) (by decide)⟩

/-! ## The move walk -/

theorem names_all_bne_of_not_contains (a : String) : ∀ (fs : List FNode),
    (fs.map FNode.name).contains a = false → fs.all (fun x => x.name != a) = true
  | [], _ => rfl
  | x :: fs, h => by
      simp only [List.map_cons, List.contains_cons, Bool.or_eq_false_iff] at h
      have h1 : x.name ≠ a := fun he => by simp [he] at h
      simp only [List.all_cons, Bool.and_eq_true, bne_iff_ne, ne_eq]
      exact ⟨h1, names_all_bne_of_not_contains a fs h.2⟩

theorem moveFiles_not_mem (c : ℤ) (rel : List String) : ∀ (fs tfs : List FNode)
    (n : String), fs.all (fun f => f.name != n) = true →
    findFile (moveFiles c rel fs tfs).kept n = none ∧
    findFile (moveFiles c rel fs tfs).tfs n = findFile tfs n
  | [], tfs, n, _ => ⟨rfl, rfl⟩
  | f :: fs, tfs, n, h => by
      simp only [List.all_cons, Bool.and_eq_true] at h
      have hfn : f.name ≠ n := by simpa [bne_iff_ne] using h.1
      have hnf : n ≠ f.name := fun e => hfn e.symm
      by_cases hf : f.mtime < c
      · cases he : f.err
        · have ih := moveFiles_not_mem c rel fs (putFile tfs f) n h.2
          simp [moveFiles, hf, he, ih.1, ih.2, findFile_putFile_other tfs f hnf]
        · have ih := moveFiles_not_mem c rel fs tfs n h.2
          simp [moveFiles, hf, he, findFile, hfn, ih.1, ih.2]
      · have ih := moveFiles_not_mem c rel fs tfs n h.2
        simp [moveFiles, hf, findFile, hfn, ih.1, ih.2]

theorem moveFiles_found (c : ℤ) (rel : List String) : ∀ (fs tfs : List FNode)
    (n : String) (f : FNode), nodupStr (fs.map FNode.name) = true →
    findFile fs n = some f →
    ((f.mtime < c ∧ f.err = false →
        findFile (moveFiles c rel fs tfs).kept n = none ∧
        findFile (moveFiles c rel fs tfs).tfs n = some f ∧
        Msg.moved rel n ∈ (moveFiles c rel fs tfs).trace) ∧
     (f.mtime < c ∧ f.err = true →
        findFile (moveFiles c rel fs tfs).kept n = some f ∧
        Msg.errorMoving rel n ∈ (moveFiles c rel fs tfs).trace) ∧
     (¬f.mtime < c → findFile (moveFiles c rel fs tfs).kept n = some f))
  | [], tfs, n, f, _, hfind => by simp [findFile] at hfind
  | g :: fs, tfs, n, f, hnd, hfind => by
      simp only [List.map_cons, nodupStr, Bool.and_eq_true] at hnd
      have hnc : (fs.map FNode.name).contains g.name = false := by
        simpa using hnd.1
      simp only [findFile] at hfind
      by_cases hgn : g.name = n
      · rw [if_pos hgn] at hfind
        cases hfind
        subst hgn
        have hall := names_all_bne_of_not_contains g.name fs hnc
        refine ⟨?_, ?_, ?_⟩
        · rintro ⟨hf, he⟩
          have ih := moveFiles_not_mem c rel fs (putFile tfs g) g.name hall
          refine ⟨?_, ?_, ?_⟩
          · simp [moveFiles, hf, he, ih.1]
          · simp [moveFiles, hf, he, ih.2, findFile_putFile_self]
          · simp [moveFiles, hf, he]
        · rintro ⟨hf, he⟩
          refine ⟨?_, ?_⟩
          · simp [moveFiles, hf, he, findFile]
          · simp [moveFiles, hf, he]
        · intro hf
          simp [moveFiles, hf, findFile]
      · rw [if_neg hgn] at hfind
        refine ⟨?_, ?_, ?_⟩
        · rintro ⟨hf, he⟩
          by_cases hg : g.mtime < c
          · cases hge : g.err
            · have ih := (moveFiles_found c rel fs (putFile tfs g) n f hnd.2 hfind).1 ⟨hf, he⟩
              refine ⟨?_, ?_, ?_⟩
              · simp [moveFiles, hg, hge, ih.1]
              · simp [moveFiles, hg, hge, ih.2.1]
              · simp only [moveFiles, hg, hge, if_pos, if_neg]
                simp [FilesRes.trace, ih.2.2]
            · have ih := (moveFiles_found c rel fs tfs n f hnd.2 hfind).1 ⟨hf, he⟩
              refine ⟨?_, ?_, ?_⟩
              · simp [moveFiles, hg, hge, findFile, hgn, ih.1]
              · simp [moveFiles, hg, hge, ih.2.1]
              · simp [moveFiles, hg, hge, ih.2.2]
          · have ih := (moveFiles_found c rel fs tfs n f hnd.2 hfind).1 ⟨hf, he⟩
            refine ⟨?_, ?_, ?_⟩
            · simp [moveFiles, hg, findFile, hgn, ih.1]
            · simp [moveFiles, hg, ih.2.1]
            · simp [moveFiles, hg, ih.2.2]
        · rintro ⟨hf, he⟩
          by_cases hg : g.mtime < c
          · cases hge : g.err
            · have ih := (moveFiles_found c rel fs (putFile tfs g) n f hnd.2 hfind).2.1 ⟨hf, he⟩
              exact ⟨by simp [moveFiles, hg, hge, ih.1], by simp [moveFiles, hg, hge, ih.2]⟩
            · have ih := (moveFiles_found c rel fs tfs n f hnd.2 hfind).2.1 ⟨hf, he⟩
              exact ⟨by simp [moveFiles, hg, hge, findFile, hgn, ih.1],
                     by simp [moveFiles, hg, hge, ih.2]⟩
          · have ih := (moveFiles_found c rel fs tfs n f hnd.2 hfind).2.1 ⟨hf, he⟩
            exact ⟨by simp [moveFiles, hg, findFile, hgn, ih.1],
                   by simp [moveFiles, hg, ih.2]⟩
        · intro hf
          by_cases hg : g.mtime < c
          · cases hge : g.err
            · have ih := (moveFiles_found c rel fs (putFile tfs g) n f hnd.2 hfind).2.2 hf
              simp [moveFiles, hg, hge, ih]
            · have ih := (moveFiles_found c rel fs tfs n f hnd.2 hfind).2.2 hf
              simp [moveFiles, hg, hge, findFile, hgn, ih]
          · have ih := (moveFiles_found c rel fs tfs n f hnd.2 hfind).2.2 hf
            simp [moveFiles, hg, findFile, hgn, ih]

mutual
theorem moveWalk_ok (c : ℤ) : ∀ (rel : List String) (d : Dir) (tgt : Option Dir),
    noMkErr d = true →
    (moveWalk c rel d tgt).ok = true ∧ (moveWalk c rel d tgt).tgt.isSome = true
  | rel, .node mk rm fs subs, tgt, h => by
      simp only [noMkErr, Bool.and_eq_true] at h
      have hmk : mk = false := by simpa using h.1
      subst hmk
      have hs := moveSubs_ok c rel subs ((tgt.getD emptyDir).subdirs) h.2
      simp only [moveWalk]
      rw [if_neg (by simp)]
      exact ⟨hs, rfl⟩
theorem moveSubs_ok (c : ℤ) : ∀ (rel : List String) (l : DirList) (ts : DirList),
    noMkErrL l = true → (moveSubs c rel l ts).ok = true
  | _, .nil, _, _ => rfl
  | rel, .cons n d rest, ts, h => by
      simp only [noMkErrL, Bool.and_eq_true] at h
      have hw := moveWalk_ok c (rel ++ [n]) d (ts.find n) h.1
      simp only [moveSubs]
      rw [if_pos hw.1]
      exact moveSubs_ok c rel rest _ h.2
end

theorem moveSubs_find_not_mem (c : ℤ) : ∀ (rel : List String) (l ts : DirList)
    (n : String), l.names.contains n = false →
    (moveSubs c rel l ts).tsubs.find n = ts.find n
  | _, .nil, ts, n, _ => rfl
  | rel, .cons m d rest, ts, n, h => by
      simp only [DirList.names, List.contains_cons, Bool.or_eq_false_iff] at h
      have hmn : m ≠ n := fun e => by simp [e] at h
      simp only [moveSubs]
      cases htgt : (moveWalk c (rel ++ [m]) d (ts.find m)).tgt with
      | some t =>
          by_cases hok : (moveWalk c (rel ++ [m]) d (ts.find m)).ok = true
          · rw [if_pos hok]
            rw [moveSubs_find_not_mem c rel rest (ts.set m t) n h.2]
            exact DirList.find_set_other ts t hmn
          · rw [if_neg hok]
            exact DirList.find_set_other ts t hmn
      | none =>
          by_cases hok : (moveWalk c (rel ++ [m]) d (ts.find m)).ok = true
          · rw [if_pos hok]
            exact moveSubs_find_not_mem c rel rest ts n h.2
          · rw [if_neg hok]

theorem moveSubs_found (c : ℤ) : ∀ (rel : List String) (l ts : DirList)
    (n : String) (d : Dir), nodupStr l.names = true → noMkErrL l = true →
    l.find n = some d →
    ((moveSubs c rel l ts).subs.find n =
        some (moveWalk c (rel ++ [n]) d (ts.find n)).src ∧
     (∀ t, (moveWalk c (rel ++ [n]) d (ts.find n)).tgt = some t →
        (moveSubs c rel l ts).tsubs.find n = some t) ∧
     (∀ m, m ∈ (moveWalk c (rel ++ [n]) d (ts.find n)).trace →
        m ∈ (moveSubs c rel l ts).trace))
  | _, .nil, _, n, d, _, _, hfind => by simp [DirList.find] at hfind
  | rel, .cons m e rest, ts, n, d, hnd, hmk, hfind => by
      simp only [DirList.names, nodupStr, Bool.and_eq_true] at hnd
      simp only [noMkErrL, Bool.and_eq_true] at hmk
      have hok := (moveWalk_ok c (rel ++ [m]) e (ts.find m) hmk.1).1
      simp only [DirList.find] at hfind
      obtain ⟨t, ht⟩ := Option.isSome_iff_exists.mp
        (moveWalk_ok c (rel ++ [m]) e (ts.find m) hmk.1).2
      have hred : moveSubs c rel (DirList.cons m e rest) ts =
          ⟨DirList.cons m (moveWalk c (rel ++ [m]) e (ts.find m)).src
             (moveSubs c rel rest (ts.set m t)).subs,
           (moveSubs c rel rest (ts.set m t)).tsubs,
           (moveWalk c (rel ++ [m]) e (ts.find m)).cnt +
             (moveSubs c rel rest (ts.set m t)).cnt,
           (moveWalk c (rel ++ [m]) e (ts.find m)).trace ++
             (moveSubs c rel rest (ts.set m t)).trace,
           (moveSubs c rel rest (ts.set m t)).ok⟩ := by
        simp only [moveSubs, ht]
        rw [if_pos hok]
      by_cases hmn : m = n
      · rw [if_pos hmn] at hfind
        cases hfind
        subst hmn
        have hnc : rest.names.contains m = false := by simpa using hnd.1
        rw [hred]
        dsimp only
        refine ⟨?_, ?_, ?_⟩
        · simp [DirList.find]
        · intro t' ht'
          rw [ht] at ht'
          cases ht'
          rw [moveSubs_find_not_mem c rel rest (ts.set m t) m hnc]
          exact DirList.find_set_self ts m t
        · intro msg hm
          exact List.mem_append_left _ hm
      · rw [if_neg hmn] at hfind
        have hfts : (ts.set m t).find n = ts.find n :=
          DirList.find_set_other ts t hmn
        have ih := moveSubs_found c rel rest (ts.set m t) n d hnd.2 hmk.2 hfind
        rw [hfts] at ih
        rw [hred]
        dsimp only
        refine ⟨?_, ?_, ?_⟩
        · simp only [DirList.find, if_neg hmn]
          exact ih.1
        · intro t' ht'
          exact ih.2.1 t' ht'
        · intro msg hm
          exact List.mem_append_right _ (ih.2.2 msg hm)

theorem Dir.subdirs_node (mk rm : Bool) (fs : List FNode) (sd : DirList) :
    (Dir.node mk rm fs sd).subdirs = sd := rfl

theorem Dir.files_node (mk rm : Bool) (fs : List FNode) (sd : DirList) :
    (Dir.node mk rm fs sd).files = fs := rfl

theorem moveWalk_node_red (c : ℤ) (rel : List String) (rm : Bool)
    (fs : List FNode) (subs : DirList) (tgt : Option Dir) :
    moveWalk c rel (.node false rm fs subs) tgt =
      ⟨.node false rm (moveFiles c rel fs ((tgt.getD emptyDir).files)).kept
         (moveSubs c rel subs ((tgt.getD emptyDir).subdirs)).subs,
       some (.node ((tgt.getD emptyDir).mkErr) ((tgt.getD emptyDir).rmErr)
         (moveFiles c rel fs ((tgt.getD emptyDir).files)).tfs
         (moveSubs c rel subs ((tgt.getD emptyDir).subdirs)).tsubs),
       (moveFiles c rel fs ((tgt.getD emptyDir).files)).cnt +
         (moveSubs c rel subs ((tgt.getD emptyDir).subdirs)).cnt,
       (moveFiles c rel fs ((tgt.getD emptyDir).files)).trace ++
         (moveSubs c rel subs ((tgt.getD emptyDir).subdirs)).trace,
       (moveSubs c rel subs ((tgt.getD emptyDir).subdirs)).ok⟩ := by
  simp only [moveWalk]
  rw [if_neg (by simp)]

theorem lookupFile_cons (d : Dir) (q : String) (p : List String) (n : String) :
    lookupFile d (q :: p) n =
      (match d.subdirs.find q with
       | some e => lookupFile e p n
       | none => none) := by
  cases hq : d.subdirs.find q with
  | some e => simp [lookupFile, lookupDir, hq]
  | none => simp [lookupFile, lookupDir, hq]

theorem lookupDir_cons (d : Dir) (q : String) (p : List String) :
    lookupDir d (q :: p) =
      (match d.subdirs.find q with
       | some e => lookupDir e p
       | none => none) := rfl

theorem moveWalk_file_fate (c : ℤ) : ∀ (p rel : List String) (d : Dir)
    (tgt : Option Dir) (n : String) (f : FNode),
    noMkErr d = true → wfTree d = true → lookupFile d p n = some f →
    ((f.mtime < c ∧ f.err = false →
        lookupFile (moveWalk c rel d tgt).src p n = none ∧
        lookupFile ((moveWalk c rel d tgt).tgt.getD emptyDir) p n = some f ∧
        Msg.moved (rel ++ p) n ∈ (moveWalk c rel d tgt).trace) ∧
     (f.mtime < c ∧ f.err = true →
        lookupFile (moveWalk c rel d tgt).src p n = some f ∧
        Msg.errorMoving (rel ++ p) n ∈ (moveWalk c rel d tgt).trace) ∧
     (¬f.mtime < c → lookupFile (moveWalk c rel d tgt).src p n = some f))
  | [], rel, .node mk rm fs subs, tgt, n, f, hmk, hwf, hfind => by
      simp only [noMkErr, Bool.and_eq_true] at hmk
      have hmk0 : mk = false := by simpa using hmk.1
      subst hmk0
      simp only [wfTree, Bool.and_eq_true] at hwf
      have hff : findFile fs n = some f := by
        simpa [lookupFile, lookupDir, Dir.files] using hfind
      have hm2 := moveFiles_found c rel fs ((tgt.getD emptyDir).files) n f hwf.1.1 hff
      rw [moveWalk_node_red]
      dsimp only
      refine ⟨fun hc => ?_, fun hc => ?_, fun hc => ?_⟩
      · obtain ⟨h1, h2, h3⟩ := hm2.1 hc
        refine ⟨?_, ?_, ?_⟩
        · simpa [lookupFile, lookupDir, Dir.files] using h1
        · simpa [Option.getD_some, lookupFile, lookupDir, Dir.files] using h2
        · rw [List.append_nil]
          exact List.mem_append_left _ h3
      · obtain ⟨h1, h2⟩ := hm2.2.1 hc
        refine ⟨?_, ?_⟩
        · simpa [lookupFile, lookupDir, Dir.files] using h1
        · rw [List.append_nil]
          exact List.mem_append_left _ h2
      · have h1 := hm2.2.2 hc
        simpa [lookupFile, lookupDir, Dir.files] using h1
  | q :: p, rel, .node mk rm fs subs, tgt, n, f, hmk, hwf, hfind => by
      simp only [noMkErr, Bool.and_eq_true] at hmk
      have hmk0 : mk = false := by simpa using hmk.1
      subst hmk0
      simp only [wfTree, Bool.and_eq_true] at hwf
      rw [lookupFile_cons] at hfind
      cases hq : (Dir.node false rm fs subs).subdirs.find q with
      | none => rw [hq] at hfind; cases hfind
      | some e =>
          rw [hq] at hfind
          rw [Dir.subdirs_node] at hq
          have hmkE := noMkErrL_find hmk.2 hq
          have hwfE := wfTreeL_find hwf.2 hq
          have hS := moveSubs_found c rel subs ((tgt.getD emptyDir).subdirs) q e
            hwf.1.2 hmk.2 hq
          obtain ⟨tE, htE⟩ := Option.isSome_iff_exists.mp
            (moveWalk_ok c (rel ++ [q]) e ((tgt.getD emptyDir).subdirs.find q) hmkE).2
          have ih := moveWalk_file_fate c p (rel ++ [q]) e
            ((tgt.getD emptyDir).subdirs.find q) n f hmkE hwfE hfind
          rw [moveWalk_node_red]
          dsimp only
          refine ⟨fun hc => ?_, fun hc => ?_, fun hc => ?_⟩
          · obtain ⟨h1, h2, h3⟩ := ih.1 hc
            simp only [htE, Option.getD_some] at h2
            refine ⟨?_, ?_, ?_⟩
            · rw [lookupFile_cons]
              rw [Dir.subdirs_node]
              rw [hS.1]
              exact h1
            · rw [Option.getD_some, lookupFile_cons]
              rw [Dir.subdirs_node]
              rw [hS.2.1 tE htE]
              exact h2
            · rw [List.append_cons]
              exact List.mem_append_right _ (hS.2.2 _ h3)
          · obtain ⟨h1, h2⟩ := ih.2.1 hc
            refine ⟨?_, ?_⟩
            · rw [lookupFile_cons]
              rw [Dir.subdirs_node]
              rw [hS.1]
              exact h1
            · rw [List.append_cons]
              exact List.mem_append_right _ (hS.2.2 _ h2)
          · have h1 := ih.2.2 hc
            rw [lookupFile_cons]
            rw [Dir.subdirs_node]
            rw [hS.1]
            exact h1

theorem moveWalk_skeleton (c : ℤ) : ∀ (p rel : List String) (d : Dir)
    (tgt : Option Dir), noMkErr d = true → wfTree d = true →
    (lookupDir d p).isSome = true →
    (lookupDir ((moveWalk c rel d tgt).tgt.getD emptyDir) p).isSome = true
  | [], rel, .node mk rm fs subs, tgt, hmk, _, _ => by
      simp only [noMkErr, Bool.and_eq_true] at hmk
      have hmk0 : mk = false := by simpa using hmk.1
      subst hmk0
      rw [moveWalk_node_red]
      simp [lookupDir]
  | q :: p, rel, .node mk rm fs subs, tgt, hmk, hwf, hfind => by
      simp only [noMkErr, Bool.and_eq_true] at hmk
      have hmk0 : mk = false := by simpa using hmk.1
      subst hmk0
      simp only [wfTree, Bool.and_eq_true] at hwf
      rw [lookupDir_cons] at hfind
      cases hq : (Dir.node false rm fs subs).subdirs.find q with
      | none => rw [hq] at hfind; cases hfind
      | some e =>
          rw [hq] at hfind
          rw [Dir.subdirs_node] at hq
          have hmkE := noMkErrL_find hmk.2 hq
          have hwfE := wfTreeL_find hwf.2 hq
          have hS := moveSubs_found c rel subs ((tgt.getD emptyDir).subdirs) q e
            hwf.1.2 hmk.2 hq
          obtain ⟨tE, htE⟩ := Option.isSome_iff_exists.mp
            (moveWalk_ok c (rel ++ [q]) e ((tgt.getD emptyDir).subdirs.find q) hmkE).2
          have ih := moveWalk_skeleton c p (rel ++ [q]) e
            ((tgt.getD emptyDir).subdirs.find q) hmkE hwfE hfind
          simp only [htE, Option.getD_some] at ih
          rw [moveWalk_node_red]
          dsimp only
          rw [Option.getD_some, lookupDir_cons]
          rw [Dir.subdirs_node]
          rw [hS.2.1 tE htE]
          exact ih

/-! ## C9: the threshold calculator -/

/-- C9: given a non-negative age in hours and a reference instant (in a pure
embedding the reference clock value is an explicit argument, defaulting to
call time in the script), `get_age_threshold_timestamp` returns exactly the
instant `reference − hours` (in seconds: `now − 3600·hours`), it has no side
effects (it is a pure function), and for an age of 0 the cutoff equals the
current instant, so every file whose modification is stamped before the
invocation qualifies. -/
theorem threshold_contract (now h m : ℤ) (hnn : 0 ≤ h) :
    get_age_threshold_timestamp now h = now - h * 3600 ∧
    get_age_threshold_timestamp now 0 = now ∧
    (m < now → m < get_age_threshold_timestamp now 0) := by
  refine ⟨rfl, by simp [get_age_threshold_timestamp], fun hm => ?_⟩
  simpa [get_age_threshold_timestamp] using hm

/-- Witness for C9 at `now = 100000`, `hours = 24`, `m = 99999`. -/
theorem threshold_contract_witness :
    (0 : ℤ) ≤ 24 ∧
    (get_age_threshold_timestamp 100000 24 = 100000 - 24 * 3600 ∧
     get_age_threshold_timestamp 100000 0 = 100000 ∧
     ((99999 : ℤ) < 100000 → (99999 : ℤ) < get_age_threshold_timestamp 100000 0)) :=
  ⟨by decide, threshold_contract 100000 24 99999 (by decide)⟩

/-! ## C6: the target root always survives -/

/-- C6: for every target tree and every deletion threshold,
`delete_very_old_files` never removes the target root itself: the root
directory is still present in the result, however empty it ends up
(`root != target_path`, line 131, shields the root from `os.rmdir`). -/
theorem target_root_never_deleted (now h : ℤ) (t : Dir) :
    (delete_very_old_files now (some t) h).tgt.isSome = true := by
  cases t with
  | node mk rm fs subs =>
      simp only [delete_very_old_files, reapNode]
      simp

/-! ## C5: empty or malformed configuration and the exit status -/

/-- C5 counterexample: with the CLI argument present and invalid JSON as the
configuration, the run logs the diagnostic and the no-valid-configurations
report, but the process exit status is 0, not non-zero: the script reaches
line 176 and simply ends; `sys.exit(1)` is only executed for a missing CLI
argument (line 145).  This refutes the claim that a malformed configuration
makes the process exit with a non-zero status. -/
theorem empty_config_exit_zero_cex :
    (mainRun true ConfigInput.badJson).exitCode = 0 ∧
    (mainRun true ConfigInput.badJson).output =
      ["Error: Invalid JSON format",
       "No valid configurations found. Exiting."] ∧
    (mainRun true ConfigInput.badJson).phases = [] := by
  refine ⟨rfl, rfl, rfl⟩

/-- C5 (amended): when the configuration input is malformed or missing, the
run proceeds with an empty policy list, logs a diagnostic, reports that no
valid configurations were found, runs no phase, and the process exits with
status zero; the exit status is non-zero (1) exactly when the CLI argument
is missing, and is otherwise 0 whatever the configuration contained. -/
theorem empty_config_exit_zero (inp : ConfigInput)
    (h : (load_config inp).1 = []) :
    (mainRun true inp).exitCode = 0 ∧
    "No valid configurations found. Exiting." ∈ (mainRun true inp).output ∧
    (mainRun true inp).phases = [] ∧
    (mainRun false inp).exitCode = 1 ∧
    (∀ inp', (mainRun true inp').exitCode = 0) := by
  refine ⟨?_, ?_, ?_, rfl, ?_⟩
  · simp [mainRun, h]
  · simp [mainRun, h]
  · simp [mainRun, h]
  · intro inp'
    simp only [mainRun]
    split <;> simp_all <;> split <;> simp

/-- Witness for C5 (amended) at the invalid-JSON input. -/
theorem empty_config_exit_zero_witness :
    (load_config ConfigInput.badJson).1 = [] ∧
    ((mainRun true ConfigInput.badJson).exitCode = 0 ∧
     "No valid configurations found. Exiting." ∈ (mainRun true ConfigInput.badJson).output ∧
     (mainRun true ConfigInput.badJson).phases = [] ∧
     (mainRun false ConfigInput.badJson).exitCode = 1 ∧
     (∀ inp', (mainRun true inp').exitCode = 0)) :=
  ⟨rfl, empty_config_exit_zero ConfigInput.badJson rfl⟩

/-! ## C7: the deletion phase runs iff the threshold is present -/

/-- C7: for a policy whose paths pass validation, the deletion phase is
invoked if and only if `deletion_threshold_hours` is present
(`is not None`, line 169): absence yields the skip notice instead, and an
explicit value of 0 is present, hence triggers deletion. -/
theorem deletion_iff_threshold_present (p : RawPolicy) (s t : String)
    (hs : p.source_path = some s) (ht : p.target_path = some t)
    (hs' : s ≠ "") (ht' : t ≠ "") :
    ((∃ h, Phase.del t h ∈ runPolicy p) ↔ p.deletion_threshold_hours.isSome = true) ∧
    (∀ h, p.deletion_threshold_hours = some h → Phase.del t h ∈ runPolicy p) ∧
    (p.deletion_threshold_hours = none →
      Phase.skipDeletion t ∈ runPolicy p ∧ ∀ h, Phase.del t h ∉ runPolicy p) := by
  have hbs : (s != "") = true := by simp [bne_iff_ne, hs']
  have hbt : (t != "") = true := by simp [bne_iff_ne, ht']
  cases hdel : p.deletion_threshold_hours with
  | none =>
      simp [runPolicy, hs, ht, hbs, hbt, hdel]
  | some h0 =>
      simp [runPolicy, hs, ht, hbs, hbt, hdel]

/-- Witness for C7 at a policy with both paths and an explicit threshold of
0 hours: deletion is invoked. -/
theorem deletion_iff_threshold_present_witness :
    (RawPolicy.mk (some "src") (some "tgt") none (some 0)).source_path = some "src" ∧
    (RawPolicy.mk (some "src") (some "tgt") none (some 0)).target_path = some "tgt" ∧
    "src" ≠ "" ∧ "tgt" ≠ "" ∧
    (((∃ h, Phase.del "tgt" h ∈ runPolicy (RawPolicy.mk (some "src") (some "tgt") none (some 0))) ↔
        (RawPolicy.mk (some "src") (some "tgt") none (some 0)).deletion_threshold_hours.isSome = true) ∧
     (∀ h, (RawPolicy.mk (some "src") (some "tgt") none (some 0)).deletion_threshold_hours = some h →
        Phase.del "tgt" h ∈ runPolicy (RawPolicy.mk (some "src") (some "tgt") none (some 0))) ∧
     ((RawPolicy.mk (some "src") (some "tgt") none (some 0)).deletion_threshold_hours = none →
        Phase.skipDeletion "tgt" ∈ runPolicy (RawPolicy.mk (some "src") (some "tgt") none (some 0)) ∧
        ∀ h, Phase.del "tgt" h ∉ runPolicy (RawPolicy.mk (some "src") (some "tgt") none (some 0)))) :=
  ⟨rfl, rfl, by decide, by decide,
   deletion_iff_threshold_present _ "src" "tgt" rfl rfl (by decide) (by decide)⟩

/-! ## C3: the return value of the move phase -/

/-- C3 counterexample: `move_old_files` does not return the moved count (its
python return value is `None` on every path, docstring line 47): on a source
holding one old file it moves 1 file yet returns `None`, and on a missing
source it returns `None`, not 0.  This refutes the claim that the operation
returns the total count of moved files (and 0 for a missing source). -/
theorem move_old_files_ret_cex :
    (move_old_files 50 (some (Dir.node false false [⟨"f1", 0, false⟩] .nil)) none 0).moved = 1 ∧
    (move_old_files 50 (some (Dir.node false false [⟨"f1", 0, false⟩] .nil)) none 0).ret = none ∧
    (move_old_files 50 (none : Option Dir) none 0).ret ≠ some 0 := by
  refine ⟨by decide, by decide, by decide⟩

/-- C3 (amended): `move_old_files` counts the files it moves and logs the
total in its completion message, but returns `None` (no value); in
particular, when the source does not exist or is not a directory it logs a
warning and returns `None` without raising, having moved nothing and touched
nothing. -/
theorem move_old_files_returns_none (now h : ℤ) (src tgt : Option Dir) :
    (move_old_files now src tgt h).ret = none ∧
    (move_old_files now none tgt h).moved = 0 ∧
    (move_old_files now none tgt h).tgt = tgt ∧
    (move_old_files now none tgt h).ok = true ∧
    (move_old_files now none tgt h).trace = [Msg.warnSource] ∧
    (∀ s, src = some s → (move_old_files now src tgt h).ok = true →
       Msg.moveSummary ((move_old_files now src tgt h).moved)
         ∈ (move_old_files now src tgt h).trace) := by
  refine ⟨?_, rfl, rfl, rfl, rfl, ?_⟩
  · cases src <;> rfl
  · rintro s rfl hok
    simp only [move_old_files] at hok ⊢
    simp [hok]

/-- Witness for C3 (amended): the summary-message conjunct applied at a
one-file source. -/
theorem move_old_files_returns_none_witness :
    (move_old_files 50 (some (Dir.node false false [⟨"f1", 0, false⟩] .nil)) none 0).ret = none ∧
    Msg.moveSummary ((move_old_files 50 (some (Dir.node false false [⟨"f1", 0, false⟩] .nil)) none 0).moved)
      ∈ (move_old_files 50 (some (Dir.node false false [⟨"f1", 0, false⟩] .nil)) none 0).trace :=
  ⟨(move_old_files_returns_none 50 0 (some (Dir.node false false [⟨"f1", 0, false⟩] .nil)) none).1,
   (move_old_files_returns_none 50 0 (some (Dir.node false false [⟨"f1", 0, false⟩] .nil)) none).2.2.2.2.2
     _ rfl (by decide)⟩

/-! ## C1, C4, C10: the move phase -/

theorem move_old_files_some_red (now : ℤ) (src : Dir) (tgt : Option Dir) (h : ℤ) :
    move_old_files now (some src) tgt h =
      ⟨some (moveWalk (get_age_threshold_timestamp now h) [] src tgt).src,
       (moveWalk (get_age_threshold_timestamp now h) [] src tgt).tgt,
       (moveWalk (get_age_threshold_timestamp now h) [] src tgt).cnt,
       (moveWalk (get_age_threshold_timestamp now h) [] src tgt).ok,
       none,
       (moveWalk (get_age_threshold_timestamp now h) [] src tgt).trace ++
         if (moveWalk (get_age_threshold_timestamp now h) [] src tgt).ok then
           [.moveSummary (moveWalk (get_age_threshold_timestamp now h) [] src tgt).cnt]
         else []⟩ := rfl

/-- C1: for every file in the source tree whose modification time is
strictly less than the cutoff `now − move_threshold_hours` computed at the
start of the move phase, after `move_old_files` runs the file exists (with
identical metadata) at the mirrored relative path under the target root —
at any depth — and no longer exists under the source root; every file whose
modification time is not strictly below the cutoff remains unchanged at its
source location.  Stated for well-formed trees (no repeated names inside a
directory) in an environment where no OS operation of the move phase
raises. -/
theorem move_relocates_exactly_old (now h : ℤ) (src : Dir) (tgt : Option Dir)
    (p : List String) (n : String) (f : FNode)
    (hwf : wfTree src = true) (hclean : cleanMove src = true)
    (hfind : lookupFile src p n = some f) :
    (f.mtime < get_age_threshold_timestamp now h →
       lookupFile ((move_old_files now (some src) tgt h).src.getD emptyDir) p n = none ∧
       lookupFile ((move_old_files now (some src) tgt h).tgt.getD emptyDir) p n = some f) ∧
    (¬f.mtime < get_age_threshold_timestamp now h →
       lookupFile ((move_old_files now (some src) tgt h).src.getD emptyDir) p n = some f) := by
  simp only [cleanMove, Bool.and_eq_true] at hclean
  have herr : f.err = false := errFree_lookupFile hclean.2 hfind
  have hfate := moveWalk_file_fate (get_age_threshold_timestamp now h) p [] src
    tgt n f hclean.1 hwf hfind
  rw [move_old_files_some_red]
  dsimp only
  rw [Option.getD_some]
  constructor
  · intro hm
    obtain ⟨h1, h2, _⟩ := hfate.1 ⟨hm, herr⟩
    exact ⟨h1, h2⟩
  · intro hm
    exact hfate.2.2 hm

/-- Witness for C1 at the spec's scenario, deepened: `f1.txt` (48 h old) and
`a/c.txt` (48 h old) qualify against a 24-hour threshold while `f2.txt`
(1 h old) does not; the witness instantiates the moved `a/c.txt`. -/
theorem move_relocates_exactly_old_witness :
    wfTree (Dir.node false false [⟨"f1.txt", 0, false⟩, ⟨"f2.txt", 170000, false⟩]
      (.cons "a" (Dir.node false false [⟨"c.txt", 0, false⟩] .nil) .nil)) = true ∧
    cleanMove (Dir.node false false [⟨"f1.txt", 0, false⟩, ⟨"f2.txt", 170000, false⟩]
      (.cons "a" (Dir.node false false [⟨"c.txt", 0, false⟩] .nil) .nil)) = true ∧
    lookupFile (Dir.node false false [⟨"f1.txt", 0, false⟩, ⟨"f2.txt", 170000, false⟩]
      (.cons "a" (Dir.node false false [⟨"c.txt", 0, false⟩] .nil) .nil)) ["a"] "c.txt"
      = some ⟨"c.txt", 0, false⟩ ∧
    (((⟨"c.txt", 0, false⟩ : FNode).mtime < get_age_threshold_timestamp 172800 24 →
       lookupFile ((move_old_files 172800 (some (Dir.node false false
           [⟨"f1.txt", 0, false⟩, ⟨"f2.txt", 170000, false⟩]
           (.cons "a" (Dir.node false false [⟨"c.txt", 0, false⟩] .nil) .nil))) none 24).src.getD emptyDir)
         ["a"] "c.txt" = none ∧
       lookupFile ((move_old_files 172800 (some (Dir.node false false
           [⟨"f1.txt", 0, false⟩, ⟨"f2.txt", 170000, false⟩]
           (.cons "a" (Dir.node false false [⟨"c.txt", 0, false⟩] .nil) .nil))) none 24).tgt.getD emptyDir)
         ["a"] "c.txt" = some ⟨"c.txt", 0, false⟩) ∧
     (¬(⟨"c.txt", 0, false⟩ : FNode).mtime < get_age_threshold_timestamp 172800 24 →
       lookupFile ((move_old_files 172800 (some (Dir.node false false
           [⟨"f1.txt", 0, false⟩, ⟨"f2.txt", 170000, false⟩]
           (.cons "a" (Dir.node false false [⟨"c.txt", 0, false⟩] .nil) .nil))) none 24).src.getD emptyDir)
         ["a"] "c.txt" = some ⟨"c.txt", 0, false⟩)) :=
  ⟨by decide, by decide, by decide,
   move_relocates_exactly_old 172800 24
     (Dir.node false false [⟨"f1.txt", 0, false⟩, ⟨"f2.txt", 170000, false⟩]
       (.cons "a" (Dir.node false false [⟨"c.txt", 0, false⟩] .nil) .nil))
     none ["a"] "c.txt" ⟨"c.txt", 0, false⟩ (by decide) (by decide) (by decide)⟩

/-- C4 counterexample: the source root holds subdirectory `a`, whose
mirrored destination cannot be created (`os.makedirs` raises — the one
per-entity operation of the move phase that sits outside any `try`, line
66), followed by subdirectory `b` holding an old, perfectly movable file.
The phase aborts: nothing is logged (not even a summary), `b/f` qualifies
for the move yet stays in the source, and `b`'s mirror is never created.
This refutes the claim that every per-entity failure — including failure to
create a mirrored destination directory — is logged and leaves the
traversal running. -/
theorem makedirs_failure_aborts_cex :
    (move_old_files 3600 (some (Dir.node false false []
        (.cons "a" (Dir.node true false [] .nil)
          (.cons "b" (Dir.node false false [⟨"f", 0, false⟩] .nil) .nil)))) none 0).ok
      = false ∧
    (move_old_files 3600 (some (Dir.node false false []
        (.cons "a" (Dir.node true false [] .nil)
          (.cons "b" (Dir.node false false [⟨"f", 0, false⟩] .nil) .nil)))) none 0).trace
      = [] ∧
    ((0 : ℤ) < get_age_threshold_timestamp 3600 0) ∧
    lookupFile ((move_old_files 3600 (some (Dir.node false false []
        (.cons "a" (Dir.node true false [] .nil)
          (.cons "b" (Dir.node false false [⟨"f", 0, false⟩] .nil) .nil)))) none 0).src.getD emptyDir)
      ["b"] "f" = some ⟨"f", 0, false⟩ ∧
    (lookupDir ((move_old_files 3600 (some (Dir.node false false []
        (.cons "a" (Dir.node true false [] .nil)
          (.cons "b" (Dir.node false false [⟨"f", 0, false⟩] .nil) .nil)))) none 0).tgt.getD emptyDir)
      ["b"]).isSome = false := by
  refine ⟨by decide, by decide, by decide, by decide, by decide⟩

/-- C4 (amended): every per-FILE failure during the move phase (a raising
`os.stat` or `shutil.move`, lines 72-83) is caught, logged with context, and
leaves the traversal running — with no destination-directory creation
failure, the phase always completes, each failing old file is logged via its
error message and stays put, and every other old file is still moved.  The
claim's inclusion of destination-directory creation is wrong: `os.makedirs`
(line 66) sits outside the `try`, so its failure is unlogged and aborts the
phase (see the counterexample). -/
theorem per_file_failures_tolerated (now h : ℤ) (src : Dir) (tgt : Option Dir)
    (hmk : noMkErr src = true) (hwf : wfTree src = true) :
    (move_old_files now (some src) tgt h).ok = true ∧
    (∀ p n f, lookupFile src p n = some f →
       f.mtime < get_age_threshold_timestamp now h → f.err = true →
       lookupFile ((move_old_files now (some src) tgt h).src.getD emptyDir) p n = some f ∧
       Msg.errorMoving p n ∈ (move_old_files now (some src) tgt h).trace) ∧
    (∀ p n f, lookupFile src p n = some f →
       f.mtime < get_age_threshold_timestamp now h → f.err = false →
       lookupFile ((move_old_files now (some src) tgt h).src.getD emptyDir) p n = none ∧
       lookupFile ((move_old_files now (some src) tgt h).tgt.getD emptyDir) p n = some f) := by
  have hokk := moveWalk_ok (get_age_threshold_timestamp now h) [] src tgt hmk
  rw [move_old_files_some_red]
  dsimp only
  rw [Option.getD_some]
  refine ⟨hokk.1, ?_, ?_⟩
  · intro p n f hfind hm he
    have hfate := moveWalk_file_fate (get_age_threshold_timestamp now h) p [] src
      tgt n f hmk hwf hfind
    obtain ⟨h1, h2⟩ := hfate.2.1 ⟨hm, he⟩
    rw [List.nil_append] at h2
    exact ⟨h1, List.mem_append_left _ h2⟩
  · intro p n f hfind hm he
    have hfate := moveWalk_file_fate (get_age_threshold_timestamp now h) p [] src
      tgt n f hmk hwf hfind
    obtain ⟨h1, h2, _⟩ := hfate.1 ⟨hm, he⟩
    exact ⟨h1, h2⟩

/-- Witness for C4 (amended) at a source holding one old file whose move
raises and one old file that moves cleanly. -/
theorem per_file_failures_tolerated_witness :
    noMkErr (Dir.node false false [⟨"bad", 0, true⟩, ⟨"good", 0, false⟩] .nil) = true ∧
    wfTree (Dir.node false false [⟨"bad", 0, true⟩, ⟨"good", 0, false⟩] .nil) = true ∧
    ((move_old_files 3600 (some (Dir.node false false
        [⟨"bad", 0, true⟩, ⟨"good", 0, false⟩] .nil)) none 0).ok = true ∧
     (∀ p n f, lookupFile (Dir.node false false
          [⟨"bad", 0, true⟩, ⟨"good", 0, false⟩] .nil) p n = some f →
        f.mtime < get_age_threshold_timestamp 3600 0 → f.err = true →
        lookupFile ((move_old_files 3600 (some (Dir.node false false
            [⟨"bad", 0, true⟩, ⟨"good", 0, false⟩] .nil)) none 0).src.getD emptyDir) p n = some f ∧
        Msg.errorMoving p n ∈ (move_old_files 3600 (some (Dir.node false false
            [⟨"bad", 0, true⟩, ⟨"good", 0, false⟩] .nil)) none 0).trace) ∧
     (∀ p n f, lookupFile (Dir.node false false
          [⟨"bad", 0, true⟩, ⟨"good", 0, false⟩] .nil) p n = some f →
        f.mtime < get_age_threshold_timestamp 3600 0 → f.err = false →
        lookupFile ((move_old_files 3600 (some (Dir.node false false
            [⟨"bad", 0, true⟩, ⟨"good", 0, false⟩] .nil)) none 0).src.getD emptyDir) p n = none ∧
        lookupFile ((move_old_files 3600 (some (Dir.node false false
            [⟨"bad", 0, true⟩, ⟨"good", 0, false⟩] .nil)) none 0).tgt.getD emptyDir) p n = some f)) :=
  ⟨by decide, by decide,
   per_file_failures_tolerated 3600 0
     (Dir.node false false [⟨"bad", 0, true⟩, ⟨"good", 0, false⟩] .nil) none
     (by decide) (by decide)⟩

/-- C10: for every directory of the source tree — the source root itself
included, and directories holding no file old enough to move included — the
move phase creates the mirrored directory under the target root
(`os.makedirs(destination_dir, exist_ok=True)`, line 66, runs for every
directory `os.walk` yields, before any file of that directory is examined):
even a run that moves zero files materializes the complete source directory
skeleton under the target root. -/
theorem move_materializes_skeleton (now h : ℤ) (src : Dir) (tgt : Option Dir)
    (hmk : noMkErr src = true) (hwf : wfTree src = true) :
    (move_old_files now (some src) tgt h).tgt.isSome = true ∧
    ∀ p, (lookupDir src p).isSome = true →
      (lookupDir ((move_old_files now (some src) tgt h).tgt.getD emptyDir) p).isSome = true := by
  have hok := moveWalk_ok (get_age_threshold_timestamp now h) [] src tgt hmk
  rw [move_old_files_some_red]
  dsimp only
  exact ⟨hok.2, fun p hp =>
    moveWalk_skeleton (get_age_threshold_timestamp now h) p [] src tgt hmk hwf hp⟩

/-- Witness for C10 at a file-less two-level source tree moved into a
missing target: the run moves nothing, yet the skeleton appears. -/
theorem move_materializes_skeleton_witness :
    noMkErr (Dir.node false false []
      (.cons "a" (Dir.node false false [] (.cons "b" (Dir.node false false [] .nil) .nil)) .nil)) = true ∧
    wfTree (Dir.node false false []
      (.cons "a" (Dir.node false false [] (.cons "b" (Dir.node false false [] .nil) .nil)) .nil)) = true ∧
    ((move_old_files 100 (some (Dir.node false false []
        (.cons "a" (Dir.node false false [] (.cons "b" (Dir.node false false [] .nil) .nil)) .nil)))
        none 0).tgt.isSome = true ∧
     ∀ p, (lookupDir (Dir.node false false []
        (.cons "a" (Dir.node false false [] (.cons "b" (Dir.node false false [] .nil) .nil)) .nil))
        p).isSome = true →
      (lookupDir ((move_old_files 100 (some (Dir.node false false []
          (.cons "a" (Dir.node false false [] (.cons "b" (Dir.node false false [] .nil) .nil)) .nil)))
          none 0).tgt.getD emptyDir) p).isSome = true) :=
  ⟨by decide, by decide,
   move_materializes_skeleton 100 0
     (Dir.node false false []
       (.cons "a" (Dir.node false false [] (.cons "b" (Dir.node false false [] .nil) .nil)) .nil))
     none (by decide) (by decide)⟩

end MoveNDelete
